import Mathlib

/-!
Shallow embedding of `src/service/rate.go` (package `service` of the Bolt
repository) and proofs about the claims of its specification.

Modelling conventions:
* Go `float64` monetary amounts are modelled as `ℚ` (the claims under
  scrutiny concern which people receive which shares and the divisor
  counts, all exact at the inputs used, not IEEE rounding).
* A Go `map[string]float64` is modelled as an association list
  `RateMap := List (String × ℚ)` with unique keys; Go's in-place map
  mutation is modelled by returning the post-call map.
* Collaborators that live outside `rate.go` (user store, order provider,
  transport) are parameters of the embedded functions, with their
  outcomes enumerated by small inductive types.  Error values that the
  source distinguishes by substring matching ("order canceled",
  "context canceled while waiting") are modelled as distinguished error
  kinds, as the spec prescribes for the provider boundary.
-/

namespace BoltService

/-- A user from the user directory: transport-addressable id and ordered,
already-rendered payment-method preferences (`v.String()` in the source). -/
structure User where
  TransportID : String
  PaymentPreferences : List String
deriving DecidableEq, Repr

/-- `Rate` from rate.go: one participant's computed share. -/
structure Rate where
  WoltName : String
  User : Option User
  Amount : ℚ
deriving DecidableEq, Repr

/-- `GroupRate` from rate.go. -/
structure GroupRate where
  Rates : List Rate
  HostWoltUser : String
  HostUser : Option User
  DeliveryRate : ℤ
deriving DecidableEq, Repr

/-- Model of a Go `map[string]float64`: association list with unique keys. -/
abbrev RateMap := List (String × ℚ)

/-- The keys of a rate map. -/
def RateMap.keysOf (m : RateMap) : List String := List.map Prod.fst m

/-- Go map indexing `m[k]` (with its present/absent flag). -/
def RateMap.lookup (m : RateMap) (k : String) : Option ℚ :=
  (List.find? (fun p => p.1 = k) m).map Prod.snd

/-- Go map length `len(m)`. -/
def RateMap.size (m : RateMap) : Nat := List.length m

/-- Result of `h.userStore.ListUsers` for one name: an error, or a list of
matching users in the directory's own order. -/
inductive UserLookup where
  | fail
  | found (users : List User)
deriving DecidableEq, Repr

/-- The user directory collaborator, keyed by the queried name. -/
def UserStore := String → UserLookup

/-- Lexicographic comparison of character lists.  On UTF-8 strings,
codepoint-lexicographic order coincides with the bytewise order used by
Go's `sort.Strings`. -/
def charListLe : List Char → List Char → Bool
  | [], _ => true
  | _ :: _, [] => false
  | a :: as, b :: bs => if a < b then true else if a = b then charListLe as bs else false

/-- String order of `sort.Strings`, on the character data. -/
def strLe (a b : String) : Bool := charListLe a.data b.data

/-- `getSortedKeys` from rate.go: collect the map's keys and sort them
lexicographically (`sort.Strings`; an insertion sort is used here as the
model of the sort). -/
def getSortedKeys (m : RateMap) : List String :=
  (RateMap.keysOf m).insertionSort (fun a b => strLe a b)

theorem mem_getSortedKeys_iff (m : RateMap) (k : String) :
    k ∈ getSortedKeys m ↔ k ∈ RateMap.keysOf m :=
  (List.perm_insertionSort (fun a b => strLe a b) (RateMap.keysOf m)).mem_iff

/-- The user attached to a person's entry by the resolution loop in
`buildGroupRates`: only a single-element directory answer is attached
(an error, zero matches, or more than one match all leave it `none`,
via `continue` in the source). -/
def resolveUser (store : UserStore) (person : String) : Option User :=
  match store person with
  | .fail => none
  | .found [] => none
  | .found [u] => some u
  | .found (_ :: _ :: _) => none

/-- Lines 152-155 of `buildGroupRates`: when the host is not a key of the
map, insert it with raw amount `0.0` (an in-place mutation of the caller's
map in the source). -/
def hostAdjust (woltRates : RateMap) (host : String) : RateMap :=
  if (RateMap.lookup woltRates host).isSome then woltRates
  else woltRates ++ ([(host, 0)] : RateMap)

/-- `buildGroupRates` from rate.go.  Returns the constructed `GroupRate`
together with the post-call state of the (mutated) input map: the host is
inserted with amount `0.0` when absent.  `HostUser` is set by the loop
iteration whose person equals the host; the host is always among the keys
after the insertion, so this equals `resolveUser store host`. -/
def buildGroupRates (store : UserStore) (woltRates : RateMap) (host : String)
    (deliveryRate : ℤ) : GroupRate × RateMap :=
  let woltRates' : RateMap := hostAdjust woltRates host
  let sortedKeys := getSortedKeys woltRates'
  let rates := sortedKeys.map (fun person =>
    Rate.mk person (resolveUser store person)
      ((RateMap.lookup woltRates' person).getD 0))
  (GroupRate.mk rates host (resolveUser store host) deliveryRate, woltRates')

theorem buildGroupRates_fst_Rates (store : UserStore) (m : RateMap)
    (host : String) (dr : ℤ) :
    (buildGroupRates store m host dr).1.Rates
      = (getSortedKeys (hostAdjust m host)).map (fun person =>
          Rate.mk person (resolveUser store person)
            ((RateMap.lookup (hostAdjust m host) person).getD 0)) := rfl

theorem buildGroupRates_snd (store : UserStore) (m : RateMap)
    (host : String) (dr : ℤ) :
    (buildGroupRates store m host dr).2 = hostAdjust m host := rfl

/-- Time of day as (hour, minute); `none` models the zero `time.Time`
(`dontJoinAfter.IsZero()`), i.e. no configured cutoff.  The optional
time-zone conversion is modelled by `now` already being the local
time-of-day in the configured zone. -/
abbrev TimeOfDay := Nat × Nat

/-- `shouldHandleOrder` from rate.go. -/
def shouldHandleOrder (dontJoinAfter : Option TimeOfDay) (now : TimeOfDay) : Bool :=
  match dontJoinAfter with
  | none => true
  | some cutoff =>
    if now.1 > cutoff.1 ∨ (now.1 = cutoff.1 ∧ now.2 ≥ cutoff.2) then false
    else true

/-! ## Identifier extraction (`groupLinkRe`, `getWoltGroupID`)

The regex is `\/group(-order)?\/(?P<id>[A-Z0-9]+?)((\/join)?\/?$)`.
URLs are modelled as `List Char`. -/

/-- Character class `[A-Z0-9]` of the `id` group in `groupLinkRe`. -/
def isIdChar (c : Char) : Bool :=
  decide (('A' ≤ c ∧ c ≤ 'Z') ∨ ('0' ≤ c ∧ c ≤ '9'))

/-- Literal segment `/group/`. -/
def groupSeg : List Char := ['/', 'g', 'r', 'o', 'u', 'p', '/']

/-- Literal segment `/group-order/`. -/
def groupOrderSeg : List Char :=
  ['/', 'g', 'r', 'o', 'u', 'p', '-', 'o', 'r', 'd', 'e', 'r', '/']

/-- The four texts the anchored tail `((\/join)?\/?$)` can match. -/
def tailJoin : List Char := ['/', 'j', 'o', 'i', 'n']

/-- The trailing `/join/` variant. -/
def tailJoinSlash : List Char := ['/', 'j', 'o', 'i', 'n', '/']

/-- Whether `pat` is an initial segment of `s`. -/
def leadsWith : List Char → List Char → Bool
  | [], _ => true
  | _ :: _, [] => false
  | a :: as, b :: bs => a = b && leadsWith as bs

/-- Matching of `(?P<id>[A-Z0-9]+?)((\/join)?\/?$)` against the rest of
the URL after the group segment: the lazily-matched id is forced to be the
leading run of `[A-Z0-9]` characters, and (because of the `$` anchor) the
remainder of the URL must be exactly empty, `/`, `/join` or `/join/`. -/
def parseIdTail (t : List Char) : Option (List Char) :=
  if t.takeWhile isIdChar ≠ [] ∧
      (t.dropWhile isIdChar = [] ∨ t.dropWhile isIdChar = ['/'] ∨
        t.dropWhile isIdChar = tailJoin ∨ t.dropWhile isIdChar = tailJoinSlash)
  then some (t.takeWhile isIdChar)
  else none

/-- One attempt of `groupLinkRe` at a fixed start position: the literal
`/group`, the greedy optional `-order`, the literal `/`, then id and tail.
(The two header alternatives are mutually exclusive at any position.) -/
def matchHere (s : List Char) : Option (List Char) :=
  if leadsWith groupOrderSeg s then parseIdTail (s.drop 13)
  else if leadsWith groupSeg s then parseIdTail (s.drop 7)
  else none

/-- Leftmost search of `groupLinkRe` over the URL (Go regexp semantics:
the match starting at the earliest position wins). -/
def findGroupID : List Char → Option (List Char)
  | [] => none
  | c :: rest =>
    match matchHere (c :: rest) with
    | some ident => some ident
    | none => findGroupID rest

/-- One inbound link: a domain tag and a URL. -/
structure Link where
  Domain : String
  URL : List Char
deriving DecidableEq, Repr

/-- `getWoltGroupID` from rate.go: scan the links in order, skip any link
whose domain is not `wolt.com`, skip any wolt link whose URL the regex
does not match (a match error is logged and also skipped), and return the
id of the first link that matches. -/
def getWoltGroupID : List Link → Option (List Char)
  | [] => none
  | link :: rest =>
    if link.Domain ≠ "wolt.com" then getWoltGroupID rest
    else
      match findGroupID link.URL with
      | some ident => some ident
      | none => getWoltGroupID rest

/-! ### Lemmas about the identifier extractor -/

theorem leadsWith_iff : ∀ (pat s : List Char),
    leadsWith pat s = true ↔ ∃ rest, s = pat ++ rest
  | [], s => by simp [leadsWith]
  | a :: as, [] => by simp [leadsWith]
  | a :: as, b :: bs => by
    simp only [leadsWith, Bool.and_eq_true, decide_eq_true_eq, leadsWith_iff as bs,
      List.cons_append]
    constructor
    · rintro ⟨rfl, rest, rfl⟩
      exact ⟨rest, rfl⟩
    · rintro ⟨rest, h⟩
      injection h with h1 h2
      exact ⟨h1.symm, rest, h2⟩

theorem isIdChar_g : isIdChar 'g' = false := by decide

theorem parseIdTail_eq_some {t r : List Char} (h : parseIdTail t = some r) :
    r ≠ [] ∧ (∀ c ∈ r, isIdChar c = true) ∧
      (t = r ∨ t = r ++ ['/'] ∨ t = r ++ tailJoin ∨ t = r ++ tailJoinSlash) := by
  unfold parseIdTail at h
  split at h
  · rename_i hcond
    obtain ⟨hne, hrest⟩ := hcond
    injection h with h
    subst h
    refine ⟨hne, fun c hc => List.mem_takeWhile_imp hc, ?_⟩
    have ht := List.takeWhile_append_dropWhile isIdChar t
    rcases hrest with h0 | h0 | h0 | h0 <;> rw [h0] at ht
    · exact Or.inl (by simpa using ht.symm)
    · exact Or.inr (Or.inl ht.symm)
    · exact Or.inr (Or.inr (Or.inl ht.symm))
    · exact Or.inr (Or.inr (Or.inr ht.symm))
  · exact absurd h (by simp)

theorem parseIdTail_canonical {ident tl : List Char} (h1 : ident ≠ [])
    (h2 : ∀ c ∈ ident, isIdChar c = true)
    (h3 : tl = [] ∨ tl = ['/'] ∨ tl = tailJoin ∨ tl = tailJoinSlash) :
    parseIdTail (ident ++ tl) = some ident := by
  have htake : (ident ++ tl).takeWhile isIdChar = ident := by
    rw [List.takeWhile_append_of_pos h2]
    rcases h3 with rfl | rfl | rfl | rfl <;>
      simp [tailJoin, tailJoinSlash, List.takeWhile_cons, show isIdChar '/' = false by decide]
  have hdrop : (ident ++ tl).dropWhile isIdChar = tl := by
    rw [List.dropWhile_append_of_pos h2]
    rcases h3 with rfl | rfl | rfl | rfl <;>
      simp [tailJoin, tailJoinSlash, List.dropWhile_cons, show isIdChar '/' = false by decide]
  unfold parseIdTail
  rw [htake, hdrop]
  simp only [if_pos (And.intro h1 h3)]

theorem g_not_mem_of_parseIdTail {t r : List Char} (h : parseIdTail t = some r) :
    ('g' : Char) ∉ t := by
  obtain ⟨hne, hall, hsplit⟩ := parseIdTail_eq_some h
  have hgr : ('g' : Char) ∉ r := by
    intro hg
    have := hall _ hg
    rw [isIdChar_g] at this
    exact Bool.false_ne_true this
  rcases hsplit with rfl | rfl | rfl | rfl <;>
    simp_all [tailJoin, tailJoinSlash, List.mem_append]

theorem matchHere_shape {s r : List Char} (h : matchHere s = some r) :
    ∃ hdr body, (hdr = groupSeg ∨ hdr = groupOrderSeg) ∧ s = hdr ++ body ∧
      parseIdTail body = some r := by
  unfold matchHere at h
  split at h
  · rename_i hlead
    obtain ⟨rest, rfl⟩ := (leadsWith_iff _ _).1 hlead
    refine ⟨groupOrderSeg, rest, Or.inr rfl, rfl, ?_⟩
    rwa [show (13 : Nat) = groupOrderSeg.length from rfl, List.drop_left] at h
  · split at h
    · rename_i hlead
      obtain ⟨rest, rfl⟩ := (leadsWith_iff _ _).1 hlead
      refine ⟨groupSeg, rest, Or.inl rfl, rfl, ?_⟩
      rwa [show (7 : Nat) = groupSeg.length from rfl, List.drop_left] at h
    · exact absurd h (by simp)

theorem matchHere_groupSeg {ident tl : List Char} (h1 : ident ≠ [])
    (h2 : ∀ c ∈ ident, isIdChar c = true)
    (h3 : tl = [] ∨ tl = ['/'] ∨ tl = tailJoin ∨ tl = tailJoinSlash) :
    matchHere (groupSeg ++ (ident ++ tl)) = some ident := by
  have hno : leadsWith groupOrderSeg (groupSeg ++ (ident ++ tl)) = false := rfl
  have hyes : leadsWith groupSeg (groupSeg ++ (ident ++ tl)) = true :=
    (leadsWith_iff _ _).2 ⟨_, rfl⟩
  unfold matchHere
  rw [hno, if_neg (by simp), hyes, if_pos rfl,
    show (7 : Nat) = groupSeg.length from rfl, List.drop_left]
  exact parseIdTail_canonical h1 h2 h3

theorem matchHere_groupOrderSeg {ident tl : List Char} (h1 : ident ≠ [])
    (h2 : ∀ c ∈ ident, isIdChar c = true)
    (h3 : tl = [] ∨ tl = ['/'] ∨ tl = tailJoin ∨ tl = tailJoinSlash) :
    matchHere (groupOrderSeg ++ (ident ++ tl)) = some ident := by
  have hyes : leadsWith groupOrderSeg (groupOrderSeg ++ (ident ++ tl)) = true :=
    (leadsWith_iff _ _).2 ⟨_, rfl⟩
  unfold matchHere
  rw [hyes, if_pos rfl, show (13 : Nat) = groupOrderSeg.length from rfl, List.drop_left]
  exact parseIdTail_canonical h1 h2 h3

theorem matchHere_g_index {s r : List Char} (h : matchHere s = some r) :
    ∀ n, s[n]? = some 'g' → n = 1 := by
  obtain ⟨hdr, body, hh, rfl, hp⟩ := matchHere_shape h
  have hbody := g_not_mem_of_parseIdTail hp
  intro n hn
  by_cases hlt : n < hdr.length
  · rw [List.getElem?_append_left hlt] at hn
    rcases hh with rfl | rfl
    · have h7 : n < 7 := by simpa [groupSeg] using hlt
      interval_cases n <;> first | rfl | (exact absurd hn (by decide))
    · have h13 : n < 13 := by simpa [groupOrderSeg] using hlt
      interval_cases n <;> first | rfl | (exact absurd hn (by decide))
  · rw [List.getElem?_append_right (Nat.le_of_not_lt hlt)] at hn
    exact absurd (List.getElem?_mem hn) hbody

theorem findGroupID_canonical (hdr : List Char)
    (hh : hdr = groupSeg ∨ hdr = groupOrderSeg) (ident tl : List Char)
    (h1 : ident ≠ []) (h2 : ∀ c ∈ ident, isIdChar c = true)
    (h3 : tl = [] ∨ tl = ['/'] ∨ tl = tailJoin ∨ tl = tailJoinSlash)
    (p : List Char) :
    findGroupID (p ++ (hdr ++ (ident ++ tl))) = some ident := by
  induction p with
  | nil =>
    rw [List.nil_append]
    rcases hh with rfl | rfl
    · show findGroupID ('/' :: ('g' :: 'r' :: 'o' :: 'u' :: 'p' :: '/' ::(ident ++ tl))) = some ident
      simp only [findGroupID]
      rw [show ('/' :: 'g' :: 'r' :: 'o' :: 'u' :: 'p' :: '/' ::(ident ++ tl))
            = groupSeg ++ (ident ++ tl) from rfl,
        matchHere_groupSeg h1 h2 h3]
    · show findGroupID
        ('/' :: ('g' :: 'r' :: 'o' :: 'u' :: 'p' :: '-' :: 'o' :: 'r' :: 'd' :: 'e' :: 'r' :: '/' ::(ident ++ tl)))
          = some ident
      simp only [findGroupID]
      rw [show ('/' :: 'g' :: 'r' :: 'o' :: 'u' :: 'p' :: '-' :: 'o' :: 'r' :: 'd' :: 'e' :: 'r' :: '/' ::(ident ++ tl))
            = groupOrderSeg ++ (ident ++ tl) from rfl,
        matchHere_groupOrderSeg h1 h2 h3]
  | cons c p' ih =>
    rw [List.cons_append]
    have hG1 : (hdr ++ (ident ++ tl))[1]? = some 'g' := by
      rcases hh with rfl | rfl <;> rfl
    have hnone : matchHere (c :: (p' ++ (hdr ++ (ident ++ tl)))) = none := by
      cases hmc : matchHere (c :: (p' ++ (hdr ++ (ident ++ tl)))) with
      | none => rfl
      | some r =>
        exfalso
        have hidx : (c :: (p' ++ (hdr ++ (ident ++ tl))))[p'.length + 2]? = some 'g' := by
          rw [show (c :: (p' ++ (hdr ++ (ident ++ tl))))
                = (c :: p') ++ (hdr ++ (ident ++ tl)) from rfl,
            List.getElem?_append_right (by simp)]
          simpa using hG1
        have := matchHere_g_index hmc _ hidx
        omega
    simp only [findGroupID, hnone]
    exact ih

theorem getWoltGroupID_skip {l : Link} (rest : List Link)
    (h : l.Domain ≠ "wolt.com" ∨ findGroupID l.URL = none) :
    getWoltGroupID (l :: rest) = getWoltGroupID rest := by
  by_cases hd : l.Domain = "wolt.com"
  · rcases h with h | h
    · exact absurd hd h
    · simp [getWoltGroupID, hd, h]
  · simp [getWoltGroupID, hd]

theorem getWoltGroupID_all_skip {links : List Link}
    (h : ∀ l ∈ links, l.Domain ≠ "wolt.com" ∨ findGroupID l.URL = none) :
    getWoltGroupID links = none := by
  induction links with
  | nil => rfl
  | cons l rest ih =>
    rw [getWoltGroupID_skip rest (h l (List.mem_cons_self l rest))]
    exact ih fun l' hl' => h l' (List.mem_cons_of_mem l hl')

theorem getWoltGroupID_first {pre : List Link} {l : Link} (post : List Link)
    {ident : List Char}
    (hpre : ∀ l' ∈ pre, l'.Domain ≠ "wolt.com" ∨ findGroupID l'.URL = none)
    (hd : l.Domain = "wolt.com") (hm : findGroupID l.URL = some ident) :
    getWoltGroupID (pre ++ l :: post) = some ident := by
  induction pre with
  | nil => simp [getWoltGroupID, hd, hm]
  | cons a as ih =>
    rw [List.cons_append, getWoltGroupID_skip _ (hpre a (List.mem_cons_self a as))]
    exact ih fun l' hl' => hpre l' (List.mem_cons_of_mem a hl')

/-! ## Delivery-fee distribution (`getRateForGroup`, lines 292-296) -/

/-- The fee distribution of `getRateForGroup`: `pricePerPerson` is
`float64(deliveryRate) / float64(len(rates))` — the divisor is the size of
the map as returned by `RateByPerson`, **before** `buildGroupRates` ever
sees the host — and the share is added to every entry of that map. -/
def distributeFee (rates : RateMap) (deliveryRate : ℤ) : RateMap :=
  rates.map (fun p => (p.1, p.2 + (deliveryRate : ℚ) / (RateMap.size rates : ℚ)))

/-- The successful-delivery-rate path of `getRateForGroup` (lines 292-296):
distribute the fee over the `RateByPerson` map, then build the group rates. -/
def rateSplit (store : UserStore) (rates : RateMap) (host : String)
    (deliveryRate : ℤ) : GroupRate :=
  (buildGroupRates store (distributeFee rates deliveryRate) host deliveryRate).1

/-- The Rate Calculator algorithm in the order the spec's words state it
(§4.6 steps 1-3, the reading asserted by claim C4): *first* insert the host
with raw amount 0.0 when absent, *then* divide the delivery fee by the
number of distinct people including the host and add that share to every
person's raw amount, the host included, before building the final list. -/
def specC4Split (store : UserStore) (rates : RateMap) (host : String)
    (deliveryRate : ℤ) : GroupRate :=
  (buildGroupRates store (distributeFee (hostAdjust rates host) deliveryRate)
    host deliveryRate).1

/-- The amount attributed to `name` in a group rate's list. -/
def amountOf (g : GroupRate) (name : String) : Option ℚ :=
  (g.Rates.find? (fun r => r.WoltName = name)).map Rate.Amount

/-! ### Rate-map lemmas -/

theorem lookup_eq_none_iff (m : RateMap) (k : String) :
    RateMap.lookup m k = none ↔ k ∉ RateMap.keysOf m := by
  unfold RateMap.lookup RateMap.keysOf
  cases hf : List.find? (fun p => p.1 = k) m with
  | some p =>
    have hk : p.1 = k := by simpa using List.find?_some hf
    have hm : k ∈ List.map Prod.fst m :=
      hk ▸ List.mem_map_of_mem Prod.fst (List.mem_of_find?_eq_some hf)
    simp [hm]
  | none =>
    have hall := List.find?_eq_none.1 hf
    simp only [Option.map_none', true_iff, eq_self_iff_true]
    intro hk
    obtain ⟨q, hq, hqk⟩ := List.mem_map.1 hk
    have hq' : ¬ (q.1 = k) := by simpa using hall q hq
    exact hq' hqk

theorem lookup_append_left {m : RateMap} {k : String} {v : ℚ} (l : RateMap)
    (h : RateMap.lookup m k = some v) :
    RateMap.lookup (m ++ l) k = some v := by
  unfold RateMap.lookup at h ⊢
  rw [List.find?_append]
  cases hf : List.find? (fun p => p.1 = k) m with
  | none => rw [hf] at h; exact absurd h (by simp)
  | some p => rw [hf] at h; simp_all

theorem lookup_append_right {m : RateMap} {k : String} (l : RateMap)
    (h : RateMap.lookup m k = none) :
    RateMap.lookup (m ++ l) k = RateMap.lookup l k := by
  unfold RateMap.lookup at h ⊢
  rw [List.find?_append]
  cases hf : List.find? (fun p => p.1 = k) m with
  | none => simp
  | some p => rw [hf] at h; exact absurd h (by simp)

theorem lookup_eq_of_mem {m : RateMap} (hnd : (RateMap.keysOf m).Nodup)
    {k : String} {v : ℚ} (h : (k, v) ∈ m) :
    RateMap.lookup m k = some v := by
  induction m with
  | nil => cases h
  | cons p rest ih =>
    rcases List.mem_cons.1 h with rfl | hmem
    · simp [RateMap.lookup]
    · have hk : k ∈ RateMap.keysOf rest := List.mem_map_of_mem Prod.fst hmem
      have hne : p.1 ≠ k := by
        rintro rfl
        exact (List.nodup_cons.1 hnd).1 hk
      have := ih (List.nodup_cons.1 hnd).2 hmem
      simpa [RateMap.lookup, List.find?_cons, hne] using this

theorem keysOf_distributeFee (m : RateMap) (fee : ℤ) :
    RateMap.keysOf (distributeFee m fee) = RateMap.keysOf m := by
  simp [RateMap.keysOf, distributeFee, List.map_map, Function.comp]

theorem mem_distributeFee {m : RateMap} {k : String} {v : ℚ} (fee : ℤ)
    (h : (k, v) ∈ m) :
    (k, v + (fee : ℚ) / (RateMap.size m : ℚ)) ∈ distributeFee m fee :=
  List.mem_map.2 ⟨(k, v), h, rfl⟩

/-! ## Published message building (`buildRatesMessage`) -/

/-- Two-fractional-digit rendering of a (non-negative) amount, the ℚ model
of Go's `%.2f`: round to cents, print with exactly two decimals.  It is
used identically on the source side and on the spec side of the format
refinement, so the rounding convention does not influence any claim. -/
def format2 (q : ℚ) : String :=
  toString (round (q * 100) / 100 : ℤ) ++ "." ++
    (if (round (q * 100) % 100 : ℤ).natAbs < 10 then "0" else "") ++
    toString (round (q * 100) % 100 : ℤ).natAbs

/-- The per-line display of a rate entry: `<@TransportID> (WoltName)` when
a user is attached (`fmt.Sprintf("<@%s> (%s)", ...)`), the raw wolt name
otherwise. -/
def rateDisplay (r : Rate) : String :=
  match r.User with
  | some u => "<@" ++ u.TransportID ++ "> (" ++ r.WoltName ++ ")"
  | none => r.WoltName

/-- One output line of the rates loop: `fmt.Sprintf("%s: %.2f\n", ...)`. -/
def rateLine (r : Rate) : String :=
  rateDisplay r ++ ": " ++ format2 r.Amount ++ "\n"

/-- The `Pay to` display of the host: `<@TransportID>` when the host user
was resolved, the raw host wolt name otherwise. -/
def hostDisplay (g : GroupRate) : String :=
  match g.HostUser with
  | some u => "<@" ++ u.TransportID ++ ">"
  | none => g.HostWoltUser

/-- The `strings.Builder` loop over the rates (`for _, rate := range`). -/
def writeRates (acc : String) : List Rate → String
  | [] => acc
  | r :: rs => writeRates (acc ++ rateLine r) rs

/-- The builder content after the header write, the rates loop and the
`"\nPay to: %s\n"` write of `buildRatesMessage`. -/
def messageBeforePrefs (groupRate : GroupRate) (groupID : String) : String :=
  writeRates ("Rates for Wolt order ID " ++ groupID ++ " (including "
      ++ toString groupRate.DeliveryRate ++ " NIS for delivery):\n")
    groupRate.Rates
  ++ "\n" ++ "Pay to: " ++ hostDisplay groupRate ++ "\n"

/-- `buildRatesMessage` from rate.go, mirroring the `strings.Builder`
write sequence of the source: the preferences block is appended only when
`HostUser != nil && len(HostUser.PaymentPreferences) > 0`. -/
def buildRatesMessage (groupRate : GroupRate) (groupID : String) : String :=
  match groupRate.HostUser with
  | some u =>
    if 0 < u.PaymentPreferences.length then
      messageBeforePrefs groupRate groupID
        ++ "Preferred payments methods (in order): "
        ++ String.intercalate ", " u.PaymentPreferences ++ "\n"
    else messageBeforePrefs groupRate groupID
  | none => messageBeforePrefs groupRate groupID

/-- Concatenation of a list of already-terminated lines. -/
def joinLines : List String → String
  | [] => ""
  | s :: ss => s ++ joinLines ss

/-- The published-message format in the spec's words (§6): a header line
naming the order identifier and the NIS delivery amount; one line per
person, in the order of the (sorted) `Rates` list, as
`<mention-or-name>: <amount to 2 decimals>`; a blank line; a
`Pay to: <mention-or-name>` line; and, exactly when the host has payment
preferences, a trailing
`Preferred payments methods (in order): <comma-joined rendered preferences>`
line. -/
def specRatesMessage (groupRate : GroupRate) (groupID : String) : String :=
  "Rates for Wolt order ID " ++ groupID ++ " (including "
      ++ toString groupRate.DeliveryRate ++ " NIS for delivery):\n"
    ++ joinLines (groupRate.Rates.map rateLine)
    ++ "\n"
    ++ "Pay to: " ++ hostDisplay groupRate ++ "\n"
    ++ (match groupRate.HostUser with
        | some u =>
          if 0 < u.PaymentPreferences.length then
            "Preferred payments methods (in order): "
              ++ String.intercalate ", " u.PaymentPreferences ++ "\n"
          else ""
        | none => "")

theorem writeRates_eq (rs : List Rate) : ∀ acc : String,
    writeRates acc rs = acc ++ joinLines (rs.map rateLine) := by
  induction rs with
  | nil =>
    intro acc
    show acc = acc ++ joinLines []
    rw [joinLines, String.append_empty]
  | cons r rs ih =>
    intro acc
    show writeRates (acc ++ rateLine r) rs = acc ++ joinLines ((r :: rs).map rateLine)
    rw [ih (acc ++ rateLine r), String.append_assoc]
    rfl

/-! ## The dedup-registry admission of `HandleLinkMessage` (lines 60-65)

The source admits an order with `if _, ok := Load(id); ok { return }`
(lines 60-63) followed by `Store(id, nil)` (line 64) on a `sync.Map` —
a check-then-insert sequence of two separately-atomic operations, not an
atomic check-and-insert.  Two concurrent invocations carrying the same
identifier are modelled as an interleaving system over the shared
presence bit of that identifier. -/

/-- Program counter of one handling invocation within lines 60-64. -/
inductive AdmitPc where
  | beforeLoad
  | loaded (saw : Bool)
  | handling
  | skipped
deriving DecidableEq, Repr

/-- Shared registry bit for the identifier, plus both invocations. -/
structure AdmitState where
  present : Bool
  a : AdmitPc
  b : AdmitPc
deriving DecidableEq, Repr

/-- One atomic step of a single invocation against the shared bit:
`load` is line 60, `skip` is the early return of lines 61-62, `store` is
line 64 (it runs whenever the invocation's own load saw the identifier
absent, whatever the bit holds *now*). -/
inductive AdmitStep : Bool → AdmitPc → Bool → AdmitPc → Prop where
  | load (r : Bool) : AdmitStep r .beforeLoad r (.loaded r)
  | store (r : Bool) : AdmitStep r (.loaded false) true .handling
  | skip (r : Bool) : AdmitStep r (.loaded true) r .skipped

/-- Interleaving: either invocation takes its next step. -/
inductive SysStep : AdmitState → AdmitState → Prop where
  | left {r r' : Bool} {pa pa' pb : AdmitPc} :
      AdmitStep r pa r' pa' → SysStep ⟨r, pa, pb⟩ ⟨r', pa', pb⟩
  | right {r r' : Bool} {pa pb pb' : AdmitPc} :
      AdmitStep r pb r' pb' → SysStep ⟨r, pa, pb⟩ ⟨r, pa, pb'⟩

/-- Reachability under interleaved execution. -/
def SysReach : AdmitState → AdmitState → Prop := Relation.ReflTransGen SysStep

/-! ## `getRateForGroup` and `saveOrderAsync` (lines 242-297) -/

/-- Outcome of the provider's `WaitUntilFinished`.  Modelled from the spec:
the provider returns distinguished "canceled" and "timed out" error
conditions (§4.4), which the source distinguishes by error-substring
matching (`"order canceled"`, `"context canceled while waiting"`). -/
inductive WaitOutcome where
  | finished
  | canceled
  | timedOut
  | otherErr
deriving DecidableEq, Repr

/-- Error kinds `getRateForGroup` can return, as its caller matches them. -/
inductive RateErr where
  | markAsReady
  | waitCanceled
  | waitTimedOut
  | waitOther
  | details
  | rateByPerson
deriving DecidableEq, Repr

/-- Collaborator outcomes of one `getRateForGroup` invocation.  Modelled
from the spec: `MarkAsReady`, `WaitUntilFinished`, `Details`,
`RateByPerson` and `CalculateDeliveryRate` are order-provider calls
(§4.4) living outside rate.go, enumerated here by their possible results;
`toOrderOk` is the success of `order.ToOrder` inside `saveOrderAsync`
(also outside rate.go; its failure is only logged). -/
structure RateEnv where
  markAsReadyOk : Bool
  wait : WaitOutcome
  detailsOk : Bool
  host : String
  rateByPerson : Option RateMap
  deliveryRate : Option ℤ
  store : UserStore
  toOrderOk : Bool

/-- Result of `getRateForGroup`: the named return values, whether the
deferred `go h.saveOrderAsync(...)` was dispatched, and whether that task
reaches the persistence collaborator's `SaveOrder` (it does iff `ToOrder`
succeeds; both failures are only logged). -/
structure RateResult where
  groupRate : GroupRate
  err : Option RateErr
  saveDispatched : Bool
  saveOrderCalled : Bool
deriving DecidableEq, Repr

/-- The zero value `GroupRate{}`. -/
def emptyGroupRate : GroupRate := ⟨[], "", none, 0⟩

/-- `getRateForGroup` from rate.go as a function of its collaborator
outcomes.  The `defer func() { go h.saveOrderAsync(order, groupRate,
receiver) }()` registered on its first line runs on *every* exit path
(lines 256-258), so the save task is dispatched on all of them. -/
def getRateForGroup (env : RateEnv) : RateResult :=
  if ¬ env.markAsReadyOk then ⟨emptyGroupRate, some .markAsReady, true, env.toOrderOk⟩
  else match env.wait with
  | .canceled => ⟨emptyGroupRate, some .waitCanceled, true, env.toOrderOk⟩
  | .timedOut => ⟨emptyGroupRate, some .waitTimedOut, true, env.toOrderOk⟩
  | .otherErr => ⟨emptyGroupRate, some .waitOther, true, env.toOrderOk⟩
  | .finished =>
    if ¬ env.detailsOk then ⟨emptyGroupRate, some .details, true, env.toOrderOk⟩
    else match env.rateByPerson with
    | none => ⟨emptyGroupRate, some .rateByPerson, true, env.toOrderOk⟩
    | some rates =>
      match env.deliveryRate with
      | none =>
        ⟨(buildGroupRates env.store rates env.host 0).1, none, true, env.toOrderOk⟩
      | some fee =>
        ⟨rateSplit env.store rates env.host fee, none, true, env.toOrderOk⟩

/-! ## `HandleLinkMessage` (lines 52-130) -/

/-- Keys stored in `currentlyWorkingOrders`.  Line 64 stores (and line 65
deletes) the *string* `groupID.ID`; line 87 stores the *pointer*
`groupID` itself — a distinct `sync.Map` key. -/
inductive RegKey where
  | idStr (id : List Char)
  | idPtr (id : List Char)
deriving DecidableEq, Repr

/-- A `sync.Map` operation performed on `currentlyWorkingOrders`. -/
inductive RegOp where
  | store (k : RegKey)
  | del (k : RegKey)
deriving DecidableEq, Repr

/-- Effect of one operation on the set of present keys. -/
def applyRegOp (s : List RegKey) : RegOp → List RegKey
  | .store k => if k ∈ s then s else s ++ [k]
  | .del k => s.erase k

/-- Effect of a sequence of operations. -/
def applyRegOps (s : List RegKey) (ops : List RegOp) : List RegKey :=
  ops.foldl applyRegOp s

/-- Error results of `HandleLinkMessage`; Go `nil` is `none`. -/
inductive HandleErr where
  | wontJoin
  | notInTime
  | joinFailed
  | sendDetails
  | monitorOther
deriving DecidableEq, Repr

/-- Outcome of `monitorDelivery` (outside rate.go; modelled from the spec
as distinguished completion/timeout/error conditions, the timeout being
what the source matches as `"context canceled while waiting"`). -/
inductive MonitorOutcome where
  | ok
  | timedOut
  | otherErr
deriving DecidableEq, Repr

/-- Collaborator outcomes of one `HandleLinkMessage` invocation. -/
structure HandleEnv where
  links : List Link
  alreadyWorking : Bool
  reactionOk : Bool
  dontJoinAfter : Option TimeOfDay
  now : TimeOfDay
  informLateOk : Bool
  joinOk : Bool
  rate : RateEnv
  publishOk : Bool
  debtsOk : Bool
  monitor : MonitorOutcome

/-- Result of `HandleLinkMessage`: the error returned to the caller and
the sequence of `currentlyWorkingOrders` operations performed. -/
structure HandleResult where
  err : Option HandleErr
  ops : List RegOp
deriving DecidableEq, Repr

/-- `HandleLinkMessage` from rate.go as a function of its collaborator
outcomes.  The deferred `Delete(groupID.ID)` of line 65 runs at return on
every path that passed line 64. -/
def handleLinkMessage (env : HandleEnv) : HandleResult :=
  match getWoltGroupID env.links with
  | none => ⟨none, []⟩
  | some ident =>
    if env.alreadyWorking then ⟨none, []⟩
    else
      let enter : List RegOp := [.store (.idStr ident)]
      let leave : List RegOp := [.del (.idStr ident)]
      if ¬ env.reactionOk then ⟨some .wontJoin, enter ++ leave⟩
      else if ¬ shouldHandleOrder env.dontJoinAfter env.now then
        (if env.informLateOk then ⟨some .notInTime, enter ++ leave⟩
         else ⟨some .wontJoin, enter ++ leave⟩)
      else if ¬ env.joinOk then ⟨some .joinFailed, enter ++ leave⟩
      else
        let mid : List RegOp := enter ++ [.store (.idPtr ident)]
        match (getRateForGroup env.rate).err with
        | some .waitCanceled => ⟨none, mid ++ leave⟩
        | some .waitTimedOut => ⟨none, mid ++ leave⟩
        | some _ => ⟨none, mid ++ leave⟩
        | none =>
          if ¬ env.publishOk then ⟨some .sendDetails, mid ++ leave⟩
          else match env.monitor with
          | .timedOut => ⟨none, mid ++ leave⟩
          | .otherErr => ⟨some .monitorOther, mid ++ leave⟩
          | .ok => ⟨none, mid ++ leave⟩

/-! ## Concrete collaborator environments used by the claim theorems -/

/-- A directory in which no name matches any user. -/
def noStore : UserStore := fun _ => .found []

/-- A first and a second directory user sharing a queried name. -/
def u1 : User := ⟨"U1", []⟩

/-- The second of the two ambiguous directory users. -/
def u2 : User := ⟨"U2", []⟩

/-- A directory in which every name matches the two users `u1, u2`. -/
def dupStore : UserStore := fun _ => .found [u1, u2]

/-- A fully successful `getRateForGroup` environment. -/
def okRateEnv : RateEnv :=
  ⟨true, .finished, true, "h", some [("h", 10)], some 4, noStore, true⟩

/-- A `getRateForGroup` environment whose readiness wait times out. -/
def timeoutRateEnv : RateEnv :=
  ⟨true, .timedOut, true, "h", some [("h", 10)], some 4, noStore, true⟩

/-- A message carrying one qualifying wolt link with identifier `X7`. -/
def woltLink : Link := ⟨"wolt.com", ['/', 'g', 'r', 'o', 'u', 'p', '/', 'X', '7']⟩

/-- A fully successful `HandleLinkMessage` environment (no cutoff). -/
def okHandleEnv : HandleEnv :=
  ⟨[woltLink], false, true, none, (12, 0), true, true, okRateEnv, true, true, .ok⟩

/-- A `HandleLinkMessage` environment that is outside the schedule window:
cutoff 18:00, current time 18:00, and the too-late notice succeeds. -/
def lateHandleEnv : HandleEnv :=
  ⟨[woltLink], false, true, some (18, 0), (18, 0), true, true, okRateEnv, true, true, .ok⟩

/-! ## Claim theorems -/

/-- C1 (the code violates the claim): in the interleaved execution of the
check-then-insert of lines 60-64, a state in which *both* invocations
carrying the same order identifier were admitted and are handling is
reachable — each invocation's `Load` sees the identifier absent before
either `Store` runs, so admission does **not** succeed for exactly one. -/
theorem c1_double_admission :
    SysReach ⟨false, .beforeLoad, .beforeLoad⟩ ⟨true, .handling, .handling⟩ :=
  Relation.ReflTransGen.head (SysStep.left (AdmitStep.load false))
    (Relation.ReflTransGen.head (SysStep.right (AdmitStep.load false))
      (Relation.ReflTransGen.head (SysStep.left (AdmitStep.store false))
        (Relation.ReflTransGen.head (SysStep.right (AdmitStep.store true))
          Relation.ReflTransGen.refl)))

/-- C2 (the code violates the claim): on a successful handling invocation,
line 87 stores an entry keyed by the parsed-link *pointer* (`groupID`)
rather than the identifier string (`groupID.ID`); the deferred delete of
line 65 removes only the string key, so after `HandleLinkMessage` returns
an entry created by the call is still present in `currentlyWorkingOrders`. -/
theorem c2_pointer_entry_leaks :
    applyRegOps [] (handleLinkMessage okHandleEnv).ops
      = [RegKey.idPtr ['X', '7']] := by decide

/-- C3 counterexample: when the readiness wait times out, `getRateForGroup`
returns the timeout error, yet the deferred `go saveOrderAsync` is still
dispatched and (the domain-order conversion succeeding) the persistence
collaborator's `SaveOrder` is still invoked — the claim's "no persistence
call is made" is false at this input. -/
theorem c3_counterexample :
    (getRateForGroup timeoutRateEnv).err = some RateErr.waitTimedOut ∧
    (getRateForGroup timeoutRateEnv).saveDispatched = true ∧
    (getRateForGroup timeoutRateEnv).saveOrderCalled = true :=
  ⟨rfl, rfl, rfl⟩

/-- C3 amended: the deferred save task is dispatched exactly once per
`getRateForGroup` invocation, on *every* exit path (so at most one
persistence call per handling invocation), and the persistence
collaborator is reached exactly when the domain-order conversion
succeeds — independently of whether rate computation succeeded. -/
theorem c3_save_always_dispatched (env : RateEnv) :
    (getRateForGroup env).saveDispatched = true ∧
    (getRateForGroup env).saveOrderCalled = env.toOrderOk := by
  unfold getRateForGroup
  rcases env with ⟨mr, w, d, h, rbp, dr, st, tok⟩
  cases mr <;> cases w <;> cases d <;>
    rcases rbp with _ | r <;> rcases dr with _ | f <;>
    exact ⟨rfl, rfl⟩

/-- C5 (the code violates the claim): for a person whose name matches two
directory users, the resolution loop logs and then `continue`s (line 181),
so no user — in particular not the first returned one — is attached to the
person's rate entry, and `HostUser` also stays unresolved when that person
is the host. -/
theorem c5_ambiguous_not_attached :
    (buildGroupRates dupStore [("dana", 10)] "dana" 0).1
      = ⟨[⟨"dana", none, 10⟩], "dana", none, 0⟩ := by decide

/-- C6 counterexample: with a qualifying link, admission succeeding, the
reaction succeeding, and the current time at the 18:00 cutoff, the
schedule window is closed and `HandleLinkMessage` returns `errNotInTime`
to its caller — not "no error" as claimed. -/
theorem c6_counterexample :
    (handleLinkMessage lateHandleEnv).err = some HandleErr.notInTime := by decide

/-- C6 amended: no qualifying link and an already-being-handled order
return no error, but an inbound message outside the schedule window makes
`HandleLinkMessage` return `errNotInTime` (or `errWontJoin` when the
too-late notice itself fails to send). -/
theorem c6_error_taxonomy (env : HandleEnv) :
    (getWoltGroupID env.links = none → (handleLinkMessage env).err = none) ∧
    ((getWoltGroupID env.links).isSome → env.alreadyWorking = true →
      (handleLinkMessage env).err = none) ∧
    ((getWoltGroupID env.links).isSome → env.alreadyWorking = false →
      env.reactionOk = true →
      shouldHandleOrder env.dontJoinAfter env.now = false →
      (handleLinkMessage env).err
        = (if env.informLateOk then some HandleErr.notInTime
           else some HandleErr.wontJoin)) := by
  refine ⟨?_, ?_, ?_⟩
  · intro h
    simp [handleLinkMessage, h]
  · intro hs hw
    cases hg : getWoltGroupID env.links with
    | none => simp [handleLinkMessage, hg]
    | some ident => simp [handleLinkMessage, hg, hw]
  · intro hs hw hr hsch
    cases hg : getWoltGroupID env.links with
    | none => rw [hg] at hs; cases hs
    | some ident =>
      cases hil : env.informLateOk <;>
        simp [handleLinkMessage, hg, hw, hr, hsch, hil]

/-- C6 witness: the amended taxonomy applied at the concrete late
environment and at its no-link variant. -/
theorem c6_error_taxonomy_witness :
    (handleLinkMessage lateHandleEnv).err
        = (if lateHandleEnv.informLateOk then some HandleErr.notInTime
           else some HandleErr.wontJoin) ∧
    (handleLinkMessage ⟨[], false, true, none, (12, 0), true, true, okRateEnv,
        true, true, .ok⟩).err = none :=
  ⟨(c6_error_taxonomy lateHandleEnv).2.2 (by decide) (by decide) (by decide)
      (by decide),
   (c6_error_taxonomy ⟨[], false, true, none, (12, 0), true, true, okRateEnv,
      true, true, .ok⟩).1 (by decide)⟩

/-- C7: the Schedule Gate returns true at 17:59 and false at 18:00 and
18:01 for a configured 18:00 cutoff, and returns true at every current
time when no cutoff is configured. -/
theorem c7_schedule_gate :
    shouldHandleOrder (some (18, 0)) (17, 59) = true ∧
    shouldHandleOrder (some (18, 0)) (18, 0) = false ∧
    shouldHandleOrder (some (18, 0)) (18, 1) = false ∧
    ∀ now : TimeOfDay, shouldHandleOrder none now = true :=
  ⟨by decide, by decide, by decide, fun _ => rfl⟩

/-- C9: `buildRatesMessage` produces exactly the published format stated
by the spec — header line with the order identifier and the NIS delivery
amount, one `<mention-or-name>: <amount to 2 decimals>` line per entry of
the (sorted) `Rates` list in order, a blank line, a
`Pay to: <mention-or-name>` line, and the trailing preferences line
exactly when the host has payment preferences. -/
theorem c9_message_format (g : GroupRate) (groupID : String) :
    buildRatesMessage g groupID = specRatesMessage g groupID := by
  unfold buildRatesMessage specRatesMessage messageBeforePrefs
  rw [writeRates_eq]
  cases hH : g.HostUser with
  | none =>
    dsimp only
    simp only [String.append_assoc, String.append_empty]
  | some u =>
    dsimp only
    by_cases hp : 0 < u.PaymentPreferences.length
    · rw [if_pos hp, if_pos hp]
      simp only [String.append_assoc]
    · rw [if_neg hp, if_neg hp]
      simp only [String.append_assoc, String.append_empty]

/-- C10: the map effect of `buildGroupRates` on its caller's map — when
the host is not a key, the post-call map is the input map extended with
the host mapped to 0.0 (all other keys unchanged); when the host is
already a key, the map is unchanged. -/
theorem c10_map_mutation (store : UserStore) (m : RateMap) (host : String)
    (dr : ℤ) :
    (RateMap.lookup m host = none →
      RateMap.lookup (buildGroupRates store m host dr).2 host = some 0 ∧
      ∀ k, k ≠ host →
        RateMap.lookup (buildGroupRates store m host dr).2 k
          = RateMap.lookup m k) ∧
    ((RateMap.lookup m host).isSome → (buildGroupRates store m host dr).2 = m) := by
  rw [buildGroupRates_snd]
  constructor
  · intro h
    have hadj : hostAdjust m host = m ++ ([(host, 0)] : RateMap) := by
      unfold hostAdjust
      rw [h]
      rfl
    constructor
    · rw [hadj, lookup_append_right _ h]
      simp [RateMap.lookup]
    · intro k hk
      rw [hadj]
      cases hs : RateMap.lookup m k with
      | some v => exact lookup_append_left _ hs
      | none =>
        rw [lookup_append_right _ hs]
        simp [RateMap.lookup, Ne.symm hk]
  · intro h
    unfold hostAdjust
    rw [if_pos h]

/-- C10 witness: the mutation behavior at a host-absent input and a
host-present input. -/
theorem c10_map_mutation_witness :
    RateMap.lookup (buildGroupRates noStore [("bob", 15)] "alice" 0).2 "alice"
        = some 0 ∧
    (buildGroupRates noStore [("alice", 1)] "alice" 0).2 = [("alice", 1)] :=
  ⟨((c10_map_mutation noStore [("bob", 15)] "alice" 0).1 (by decide)).1,
   (c10_map_mutation noStore [("alice", 1)] "alice" 0).2 (by decide)⟩

/-- C4 counterexample: for input map `{bob: 15}`, host `alice` (not a key)
and delivery fee 6, the code divides the fee by the map size *before* the
host is inserted — `bob` pays the whole fee (21) and `alice` gets 0 —
whereas the claim's reading (host inserted with 0.0 before the fee is
distributed, share = fee / count including the host, added to every
person including the host) yields `alice: 3, bob: 18`. -/
theorem c4_counterexample :
    amountOf (rateSplit noStore [("bob", 15)] "alice" 6) "alice" = some 0 ∧
    amountOf (rateSplit noStore [("bob", 15)] "alice" 6) "bob" = some 21 ∧
    amountOf (specC4Split noStore [("bob", 15)] "alice" 6) "alice" = some 3 ∧
    amountOf (specC4Split noStore [("bob", 15)] "alice" 6) "bob" = some 18 ∧
    amountOf (rateSplit noStore [("bob", 15)] "alice" 6) "alice"
      ≠ amountOf (specC4Split noStore [("bob", 15)] "alice" 6) "alice" := by
  have halice : amountOf (rateSplit noStore [("bob", 15)] "alice" 6) "alice"
      = some 0 := rfl
  have hbob : amountOf (rateSplit noStore [("bob", 15)] "alice" 6) "bob"
      = some ((15 : ℚ) + ((6 : ℤ) : ℚ) / ((RateMap.size [("bob", (15 : ℚ))]) : ℚ)) := rfl
  have hsalice : amountOf (specC4Split noStore [("bob", 15)] "alice" 6) "alice"
      = some ((0 : ℚ) + ((6 : ℤ) : ℚ)
          / ((RateMap.size (hostAdjust [("bob", (15 : ℚ))] "alice")) : ℚ)) := rfl
  have hsbob : amountOf (specC4Split noStore [("bob", 15)] "alice" 6) "bob"
      = some ((15 : ℚ) + ((6 : ℤ) : ℚ)
          / ((RateMap.size (hostAdjust [("bob", (15 : ℚ))] "alice")) : ℚ)) := rfl
  have hsize1 : ((RateMap.size [("bob", (15 : ℚ))]) : ℚ) = 1 := by
    norm_num [RateMap.size]
  have hsize2 : ((RateMap.size (hostAdjust [("bob", (15 : ℚ))] "alice")) : ℚ) = 2 := by
    rw [show hostAdjust [("bob", (15 : ℚ))] "alice"
          = [("bob", (15 : ℚ)), ("alice", 0)] from rfl]
    norm_num [RateMap.size]
  refine ⟨halice, ?_, ?_, ?_, ?_⟩
  · rw [hbob, hsize1]
    norm_num
  · rw [hsalice, hsize2]
    norm_num
  · rw [hsbob, hsize2]
    norm_num
  · rw [halice, hsalice, hsize2]
    norm_num

/-- C4 amended: the per-person share is the delivery fee divided
(floating-point) by the number of people of the `RateByPerson` map — a
count that includes the host only when the host ordered something — and
the share is added to every person of that map; a host that is not a key
is inserted afterwards with amount 0.0 and receives no share. -/
theorem c4_fee_split (store : UserStore) (m : RateMap) (host : String)
    (fee : ℤ) (hnd : (RateMap.keysOf m).Nodup) :
    (∀ k v, (k, v) ∈ m →
      Rate.mk k (resolveUser store k) (v + (fee : ℚ) / (RateMap.size m : ℚ))
        ∈ (rateSplit store m host fee).Rates) ∧
    (RateMap.lookup m host = none →
      Rate.mk host (resolveUser store host) 0 ∈ (rateSplit store m host fee).Rates) := by
  have hkeys : RateMap.keysOf (distributeFee m fee) = RateMap.keysOf m :=
    keysOf_distributeFee m fee
  have hnd' : (RateMap.keysOf (distributeFee m fee)).Nodup := by rw [hkeys]; exact hnd
  constructor
  · intro k v hkv
    have hm'mem : (k, v + (fee : ℚ) / (RateMap.size m : ℚ)) ∈ distributeFee m fee :=
      mem_distributeFee fee hkv
    have hlook' : RateMap.lookup (distributeFee m fee) k
        = some (v + (fee : ℚ) / (RateMap.size m : ℚ)) :=
      lookup_eq_of_mem hnd' hm'mem
    have hlookA : RateMap.lookup (hostAdjust (distributeFee m fee) host) k
        = some (v + (fee : ℚ) / (RateMap.size m : ℚ)) := by
      unfold hostAdjust
      split
      · exact hlook'
      · exact lookup_append_left _ hlook'
    have hkm : k ∈ RateMap.keysOf (distributeFee m fee) := by
      rw [hkeys]
      exact List.mem_map_of_mem Prod.fst hkv
    have hkmem : k ∈ RateMap.keysOf (hostAdjust (distributeFee m fee) host) := by
      unfold hostAdjust
      split
      · exact hkm
      · unfold RateMap.keysOf at hkm ⊢
        rw [List.map_append]
        exact List.mem_append_left _ hkm
    unfold rateSplit
    rw [buildGroupRates_fst_Rates]
    refine List.mem_map.2 ⟨k, (mem_getSortedKeys_iff _ _).2 hkmem, ?_⟩
    rw [hlookA]
    rfl
  · intro hnone
    have hnone' : RateMap.lookup (distributeFee m fee) host = none := by
      rw [lookup_eq_none_iff, hkeys]
      exact (lookup_eq_none_iff m host).1 hnone
    have hadj : hostAdjust (distributeFee m fee) host
        = distributeFee m fee ++ ([(host, 0)] : RateMap) := by
      unfold hostAdjust
      rw [hnone']
      rfl
    have hlookA : RateMap.lookup (hostAdjust (distributeFee m fee) host) host
        = some 0 := by
      rw [hadj, lookup_append_right _ hnone']
      simp [RateMap.lookup]
    have hkmem : host ∈ RateMap.keysOf (hostAdjust (distributeFee m fee) host) := by
      rw [hadj]
      unfold RateMap.keysOf
      rw [List.map_append]
      exact List.mem_append_right _ (by simp)
    unfold rateSplit
    rw [buildGroupRates_fst_Rates]
    refine List.mem_map.2 ⟨host, (mem_getSortedKeys_iff _ _).2 hkmem, ?_⟩
    rw [hlookA]
    rfl

/-- C4 witness: the amended split behavior at the counterexample's input. -/
theorem c4_fee_split_witness :
    Rate.mk "bob" (resolveUser noStore "bob")
        (15 + ((6 : ℤ) : ℚ) / (RateMap.size [("bob", (15 : ℚ))] : ℚ))
      ∈ (rateSplit noStore [("bob", 15)] "alice" 6).Rates ∧
    Rate.mk "alice" (resolveUser noStore "alice") 0
      ∈ (rateSplit noStore [("bob", 15)] "alice" 6).Rates :=
  ⟨(c4_fee_split noStore [("bob", 15)] "alice" 6 (by decide)).1 "bob" 15 (by decide),
   (c4_fee_split noStore [("bob", 15)] "alice" 6 (by decide)).2 (by decide)⟩

/-- C8: identifier extraction — an empty or all-non-matching link list
(non-wolt domains are always skipped, as are wolt links whose path does
not match) yields no identifier; the first link with the wolt domain and
a matching path determines the result; and for any URL whose path ends in
a `/group/` or `/group-order/` segment followed by a non-empty
alphanumeric identifier, the extracted identifier is the same whether the
path ends there or carries a trailing `/`, `/join` or `/join/` suffix. -/
theorem c8_identifier_extraction :
    (∀ links : List Link,
      (∀ l ∈ links, l.Domain ≠ "wolt.com" ∨ findGroupID l.URL = none) →
      getWoltGroupID links = none) ∧
    (∀ (pre : List Link) (l : Link) (post : List Link) (ident : List Char),
      (∀ l' ∈ pre, l'.Domain ≠ "wolt.com" ∨ findGroupID l'.URL = none) →
      l.Domain = "wolt.com" → findGroupID l.URL = some ident →
      getWoltGroupID (pre ++ l :: post) = some ident) ∧
    (∀ (p ident tl hdr : List Char),
      (hdr = groupSeg ∨ hdr = groupOrderSeg) →
      ident ≠ [] → (∀ c ∈ ident, isIdChar c = true) →
      (tl = [] ∨ tl = ['/'] ∨ tl = tailJoin ∨ tl = tailJoinSlash) →
      findGroupID (p ++ (hdr ++ (ident ++ tl))) = some ident) :=
  ⟨fun _ h => getWoltGroupID_all_skip h,
   fun _ _ post _ hpre hd hm => getWoltGroupID_first post hpre hd hm,
   fun p ident tl hdr hh h1 h2 h3 => findGroupID_canonical hdr hh ident tl h1 h2 h3 p⟩

/-- C8 witness: a non-matching link followed by a matching one yields the
matching link's identifier, and the suffix-invariance at a concrete URL. -/
theorem c8_identifier_extraction_witness :
    getWoltGroupID ([Link.mk "example.com" ['/', 'g', 'r', 'o', 'u', 'p', '/', 'A']]
        ++ Link.mk "wolt.com" ['/', 'g', 'r', 'o', 'u', 'p', '/', 'A', 'B'] :: [])
      = some ['A', 'B'] ∧
    findGroupID (['h', 't', 't', 'p'] ++ (groupSeg ++ (['Z'] ++ tailJoin)))
      = some ['Z'] :=
  ⟨c8_identifier_extraction.2.1 [Link.mk "example.com" ['/', 'g', 'r', 'o', 'u', 'p', '/', 'A']]
      (Link.mk "wolt.com" ['/', 'g', 'r', 'o', 'u', 'p', '/', 'A', 'B']) [] ['A', 'B']
      (by decide) (by decide) (by decide),
   c8_identifier_extraction.2.2 ['h', 't', 't', 'p'] ['Z'] tailJoin groupSeg
      (by decide) (by decide) (by decide) (by decide)⟩

/-! ## Concrete evaluations of the extractor model

Spot checks that the `groupLinkRe` model behaves as the Go regex engine
does on representative URLs, including the lazy-id, anchor and
leftmost-position subtleties. -/

example : findGroupID "/group/ABC".toList = some ['A', 'B', 'C'] := by decide
example : findGroupID "/group/ABC/".toList = some ['A', 'B', 'C'] := by decide
example : findGroupID "/group/ABC/join".toList = some ['A', 'B', 'C'] := by decide
example : findGroupID "/group/ABC/join/".toList = some ['A', 'B', 'C'] := by decide
example : findGroupID "https://wolt.com/en/group/ABC123".toList
    = some ['A', 'B', 'C', '1', '2', '3'] := by decide
example : findGroupID "/group-order/XYZ9/join".toList
    = some ['X', 'Y', 'Z', '9'] := by decide
example : findGroupID "/group/abc".toList = none := by decide
example : findGroupID "/group/A/group/B".toList = some ['B'] := by decide
example : findGroupID "/group/AB7/extra".toList = none := by decide
example : findGroupID "".toList = none := by decide

end BoltService
